import Mathlib

/-!
Shallow embedding of the color core of `src/main.rs` (a CLI color utility):
the `RGB` / `HSL` data types, RGB↔HSL conversion, hue rotation, harmony
derivation (complement / triads / tetrads), and the `FromStr` color parser.

Modelling conventions:
* Rust `u8` channels are `Fin 256`.
* Rust `f64` is modelled by `ℚ`: every floating-point operation performed by
  this program (division by 255, 100 or 360, `max`/`min`, subtraction,
  comparison, multiplication by 60/100/255, `%`, `round`) is applied to values
  derived from 8-bit integers, and is modelled as the exact rational
  operation.  Decimal literals of the source (`0.5`, `1.0/6.0`, …) are the
  corresponding exact rationals.
* Rust strings are `List Char`; byte positions of `&str` slicing are modelled
  through UTF-8 character widths, and a slice at a non-character-boundary
  byte index — a Rust panic — is modelled as `Option.none`.
-/

namespace Colors

/-- 8-bit RGB color, `struct RGB { r: u8, g: u8, b: u8 }`. -/
@[ext]
structure RGB where
  r : Fin 256
  g : Fin 256
  b : Fin 256
  deriving DecidableEq, Repr

/-- HSL color, `struct HSL { h: f64, s: f64, l: f64 }` with `f64` as `ℚ`. -/
@[ext]
structure HSL where
  h : ℚ
  s : ℚ
  l : ℚ
  deriving DecidableEq, Repr

/-- Rust `f64::round`: round half away from zero. -/
def rustRound (x : ℚ) : ℤ :=
  if 0 ≤ x then ⌊x + 1/2⌋ else -⌊-x + 1/2⌋

/-- Rust `as u8` cast from a (finite) `f64`: saturating conversion. -/
def u8cast (z : ℤ) : Fin 256 :=
  if h1 : z < 0 then 0
  else if h2 : 255 < z then 255
  else ⟨z.toNat, by omega⟩

/-- The interpolation kernel of `hue_to_rgb` in `HSL::to_rgb`, before the
`(color * 255.0).round() as u8` step: wrap `t` into range, then the 6-piece
interpolation between `p` and `q`. -/
def hueColor (p q t0 : ℚ) : ℚ :=
  let t1 := if t0 < 0 then t0 + 1 else t0
  let t := if t1 > 1 then t1 - 1 else t1
  if t < 1/6 then p + (q - p) * 6 * t
  else if t < 1/2 then q
  else if t < 2/3 then p + (q - p) * (2/3 - t) * 6
  else p

/-- `fn hue_to_rgb(p: f64, q: f64, mut t: f64) -> u8` from `HSL::to_rgb`. -/
def hue_to_rgb (p q t0 : ℚ) : Fin 256 :=
  u8cast (rustRound (hueColor p q t0 * 255))

/-- `q` of `HSL::to_rgb`, as a function of the normalized `s` and `l`. -/
def rgbQ (s l : ℚ) : ℚ :=
  if l < 1/2 then l * (1 + s) else l + s - l * s

/-- `p = 2.0 * l - q` of `HSL::to_rgb`. -/
def rgbP (s l : ℚ) : ℚ := 2 * l - rgbQ s l

/-- `HSL::to_rgb` from `main.rs`. -/
def HSL.to_rgb (hsl : HSL) : RGB :=
  let h := hsl.h / 360
  let s := hsl.s / 100
  let l := hsl.l / 100
  let q := rgbQ s l
  let p := rgbP s l
  { r := hue_to_rgb p q (h + 1/3)
    g := hue_to_rgb p q h
    b := hue_to_rgb p q (h - 1/3) }

/-- `RGB::to_hsl` from `main.rs`. -/
def RGB.to_hsl (c : RGB) : HSL :=
  let r : ℚ := (c.r.val : ℚ) / 255
  let g : ℚ := (c.g.val : ℚ) / 255
  let b : ℚ := (c.b.val : ℚ) / 255
  let maxv : ℚ := max r (max g b)
  let minv : ℚ := min r (min g b)
  let delta : ℚ := maxv - minv
  let l : ℚ := (maxv + minv) / 2
  if delta = 0 then { h := 0, s := 0, l := l * 100 }
  else
    let s : ℚ := if l < 1/2 then delta / (maxv + minv) else delta / (2 - maxv - minv)
    let h : ℚ :=
      if maxv = r then (g - b) / delta + (if g < b then 6 else 0)
      else if maxv = g then (b - r) / delta + 2
      else (r - g) / delta + 4
    { h := h * 60, s := s * 100, l := l * 100 }

/-- `RGB::complement`: channel-wise `255 - channel` (u8 arithmetic; no
overflow is possible since every channel is at most 255). -/
def RGB.complement (c : RGB) : RGB :=
  { r := ⟨255 - c.r.val, by omega⟩
    g := ⟨255 - c.g.val, by omega⟩
    b := ⟨255 - c.b.val, by omega⟩ }

/-- Truncation of a rational toward zero (the `trunc` underlying Rust's
`%` on floats). -/
def qtrunc (x : ℚ) : ℤ := if 0 ≤ x then ⌊x⌋ else ⌈x⌉

/-- Rust `%` on `f64`: remainder of truncated division; the result carries
the sign of the dividend. -/
def rustFmod (x y : ℚ) : ℚ := x - y * (qtrunc (x / y) : ℚ)

/-- `RGB::rotate_hue`: to HSL, `hsl.h = (hsl.h + degrees) % 360.0`, back to
RGB. -/
def RGB.rotate_hue (c : RGB) (degrees : ℚ) : RGB :=
  let hsl := c.to_hsl
  HSL.to_rgb { hsl with h := rustFmod (hsl.h + degrees) 360 }

/-- `RGB::triads`: the color plus its 120° and 240° hue rotations. -/
def RGB.triads (c : RGB) : List RGB :=
  [c, c.rotate_hue 120, c.rotate_hue 240]

/-- `RGB::tetrads`: the color plus its 90°, 180° and 270° hue rotations. -/
def RGB.tetrads (c : RGB) : List RGB :=
  [c, c.rotate_hue 90, c.rotate_hue 180, c.rotate_hue 270]

/-! ### The parser (`impl FromStr for RGB`) -/

/-- UTF-8 encoded width of a character (Rust `char::len_utf8`). -/
def utf8Len (c : Char) : ℕ :=
  if c.toNat < 0x80 then 1
  else if c.toNat < 0x800 then 2
  else if c.toNat < 0x10000 then 3
  else 4

/-- Byte length of a string (Rust `str::len`). -/
def byteLen (s : List Char) : ℕ := (s.map utf8Len).sum

/-- Characters making up the first `n` bytes of a string; `none` when `n`
overruns the string or falls inside a character (Rust slicing panic). -/
def takeBytes : List Char → ℕ → Option (List Char)
  | _, 0 => some []
  | [], _ + 1 => none
  | c :: cs, n + 1 =>
    if utf8Len c ≤ n + 1 then (takeBytes cs (n + 1 - utf8Len c)).map (c :: ·)
    else none

/-- Drop the first `n` bytes of a string; `none` on a non-boundary or
out-of-range byte index (Rust slicing panic). -/
def dropBytes : List Char → ℕ → Option (List Char)
  | cs, 0 => some cs
  | [], _ + 1 => none
  | c :: cs, n + 1 =>
    if utf8Len c ≤ n + 1 then dropBytes cs (n + 1 - utf8Len c)
    else none

/-- Rust byte-range slice `&s[a..b]` (with `a ≤ b`); `none` models the
panic on a non-character-boundary or out-of-range byte index. -/
def sliceBytes (s : List Char) (a b : ℕ) : Option (List Char) :=
  (dropBytes s a).bind (fun t => takeBytes t (b - a))

/-- Rust `char::is_whitespace` (the Unicode `White_Space` property). -/
def isRustWhitespace (c : Char) : Bool :=
  decide ((0x09 ≤ c.toNat ∧ c.toNat ≤ 0x0D) ∨ c.toNat = 0x20 ∨ c.toNat = 0x85 ∨
    c.toNat = 0xA0 ∨ c.toNat = 0x1680 ∨ (0x2000 ≤ c.toNat ∧ c.toNat ≤ 0x200A) ∨
    c.toNat = 0x2028 ∨ c.toNat = 0x2029 ∨ c.toNat = 0x202F ∨ c.toNat = 0x205F ∨
    c.toNat = 0x3000)

/-- Rust `str::trim`: strip whitespace from both ends. -/
def rustTrim (s : List Char) : List Char :=
  ((s.dropWhile isRustWhitespace).reverse.dropWhile isRustWhitespace).reverse

/-- Rust `char::is_ascii_hexdigit`. -/
def isAsciiHexDigit (c : Char) : Bool :=
  decide (('0' ≤ c ∧ c ≤ '9') ∨ ('a' ≤ c ∧ c ≤ 'f') ∨ ('A' ≤ c ∧ c ≤ 'F'))

/-- Rust `char::to_digit`. -/
def digitValue (radix : ℕ) (c : Char) : Option ℕ :=
  let v : Option ℕ :=
    if '0' ≤ c ∧ c ≤ '9' then some (c.toNat - '0'.toNat)
    else if 'a' ≤ c ∧ c ≤ 'z' then some (c.toNat - 'a'.toNat + 10)
    else if 'A' ≤ c ∧ c ≤ 'Z' then some (c.toNat - 'A'.toNat + 10)
    else none
  v.bind (fun d => if d < radix then some d else none)

/-- Digit-accumulation loop of `u8::from_str_radix` with checked (u8)
arithmetic: a step that would exceed 255 is an overflow error. -/
def parseU8Digits (radix : ℕ) : List Char → Fin 256 → Option (Fin 256)
  | [], acc => some acc
  | c :: rest, acc =>
    match digitValue radix c with
    | none => none
    | some d =>
      if h : acc.val * radix + d ≤ 255 then
        parseU8Digits radix rest ⟨acc.val * radix + d, by omega⟩
      else none

/-- `u8::from_str_radix` (also `str::parse::<u8>` at radix 10): optional
sign, then at least one digit; a `-` sign succeeds only on value zero. -/
def rustParseU8 (radix : ℕ) (cs : List Char) : Option (Fin 256) :=
  match cs with
  | [] => none
  | '+' :: rest => if rest.isEmpty then none else parseU8Digits radix rest 0
  | '-' :: rest =>
    if rest.isEmpty then none
    else (parseU8Digits radix rest 0).bind (fun v => if v = 0 then some 0 else none)
  | _ => parseU8Digits radix cs 0

/-- Rust `str::split(',')`: never empty, keeps empty fragments. -/
def splitOnComma (s : List Char) : List (List Char) :=
  match s with
  | [] => [[]]
  | c :: rest =>
    if c = ',' then [] :: splitOnComma rest
    else
      match splitOnComma rest with
      | [] => [[c]]
      | first :: others => (c :: first) :: others

/-- Error message of the hex-format length failure. -/
def hexFormatErr : String := "Invalid hex color format. Expected RRGGBB or #RRGGBB"

/-- Error message of the comma-format failure. -/
def rgbFormatErr : String := "Invalid RGB format. Expected r,g,b"

/-- Error message for an unparsable red component. -/
def redErr : String := "Invalid red component"

/-- Error message for an unparsable green component. -/
def greenErr : String := "Invalid green component"

/-- Error message for an unparsable blue component. -/
def blueErr : String := "Invalid blue component"

/-- Body of `RGB::from_str` after trimming.  The outer `Option` models
panics (`none` = the byte-slicing panic at a non-character boundary); the
inner `Except` is the `Result<RGB, String>` of the source. -/
def fromStrTrimmed (s : List Char) : Option (Except String RGB) :=
  if s.head? = some '#' ∨ s.all isAsciiHexDigit then
    let hex := if s.head? = some '#' then s.drop 1 else s
    if byteLen hex ≠ 6 then some (Except.error hexFormatErr)
    else
      match sliceBytes hex 0 2 with
      | none => none
      | some rs =>
        match rustParseU8 16 rs with
        | none => some (Except.error redErr)
        | some rv =>
          match sliceBytes hex 2 4 with
          | none => none
          | some gs =>
            match rustParseU8 16 gs with
            | none => some (Except.error greenErr)
            | some gv =>
              match sliceBytes hex 4 6 with
              | none => none
              | some bs =>
                match rustParseU8 16 bs with
                | none => some (Except.error blueErr)
                | some bv => some (Except.ok { r := rv, g := gv, b := bv })
  else
    match splitOnComma s with
    | [p0, p1, p2] =>
      match rustParseU8 10 (rustTrim p0) with
      | none => some (Except.error redErr)
      | some rv =>
        match rustParseU8 10 (rustTrim p1) with
        | none => some (Except.error greenErr)
        | some gv =>
          match rustParseU8 10 (rustTrim p2) with
          | none => some (Except.error blueErr)
          | some bv => some (Except.ok { r := rv, g := gv, b := bv })
    | _ => some (Except.error rgbFormatErr)

/-- `RGB::from_str` from `main.rs`: trim, then classify as hex (leading `#`
or all-ASCII-hex-digit) or comma-separated decimal. -/
def from_str (input : List Char) : Option (Except String RGB) :=
  fromStrTrimmed (rustTrim input)

/-! ### Theorems -/

/-- Trimming a string of pure whitespace leaves the empty string. -/
lemma rustTrim_eq_nil (s : List Char) (h : ∀ c ∈ s, isRustWhitespace c = true) :
    rustTrim s = [] := by
  unfold rustTrim
  have h1 : s.dropWhile isRustWhitespace = [] := List.dropWhile_eq_nil_iff.mpr h
  simp [h1]

/-- C6: complement is the channel-wise arithmetic inverse `255 - channel`,
and in particular swaps black and white. -/
theorem complement_spec (c : RGB) :
    (c.complement.r.val = 255 - c.r.val ∧ c.complement.g.val = 255 - c.g.val ∧
      c.complement.b.val = 255 - c.b.val) ∧
    (RGB.mk 0 0 0).complement = RGB.mk 255 255 255 ∧
    (RGB.mk 255 255 255).complement = RGB.mk 0 0 0 :=
  ⟨⟨rfl, rfl, rfl⟩, rfl, rfl⟩

/-- C9: complement is an involution: `255 - (255 - x) = x` with no `u8`
overflow, channel-wise. -/
theorem complement_involutive (c : RGB) : c.complement.complement = c := by
  obtain ⟨⟨r, hr⟩, ⟨g, hg⟩, ⟨b, hb⟩⟩ := c
  simp only [RGB.complement]
  ext <;> simp <;> omega

/-- C3: the parser accepts `#RRGGBB`, bare `RRGGBB` and `r,g,b` decimal, and
classifies the all-digit string `112233` as hex. -/
theorem parse_three_forms :
    from_str ("#FF0000".toList) = some (Except.ok (RGB.mk 255 0 0)) ∧
    from_str ("FF0000".toList) = some (Except.ok (RGB.mk 255 0 0)) ∧
    from_str ("255,0,0".toList) = some (Except.ok (RGB.mk 255 0 0)) ∧
    from_str ("112233".toList) = some (Except.ok (RGB.mk 0x11 0x22 0x33)) :=
  ⟨rfl, rfl, rfl, rfl⟩

/-- C4: malformed inputs fail with the specified errors: a 2-part comma
string with the format error, and an unparsable hex pair or an
out-of-range decimal component with the (red) channel error. -/
theorem parse_rejects_malformed :
    from_str ("12,34".toList) = some (Except.error rgbFormatErr) ∧
    from_str ("#ZZZZZZ".toList) = some (Except.error redErr) ∧
    from_str ("300,0,0".toList) = some (Except.error redErr) :=
  ⟨rfl, rfl, rfl⟩

/-- C2 (failing input): parsing is not panic-free.  On `"#€abc"` the hex
payload `"€abc"` is 6 bytes long, so it passes the length check, but the
byte slice `&hex[0..2]` falls inside the 3-byte character `€` — a Rust
panic, modelled as `none`. -/
theorem from_str_panics_on_multibyte :
    from_str ("#€abc".toList) = none :=
  rfl

/-- C10: an empty or whitespace-only input trims to the empty string, which
is (vacuously) all-hex-digits, so it is classified as hex and fails the
6-byte length check with the hex format error. -/
theorem from_str_whitespace_only (s : List Char)
    (h : ∀ c ∈ s, isRustWhitespace c = true) :
    from_str s = some (Except.error hexFormatErr) := by
  unfold from_str
  rw [rustTrim_eq_nil s h]
  rfl

/-- C10 witness: the empty string and a two-space string both give the hex
format error. -/
theorem from_str_whitespace_only_witness :
    from_str ("".toList) = some (Except.error hexFormatErr) ∧
    from_str ("  ".toList) = some (Except.error hexFormatErr) :=
  ⟨from_str_whitespace_only "".toList (by decide),
   from_str_whitespace_only "  ".toList (by decide)⟩

/-- C5: `triads` is exactly `[c, rotate 120°, rotate 240°]` and `tetrads`
is exactly `[c, rotate 90°, rotate 180°, rotate 270°]`, where rotating by
`d` converts to HSL, replaces the hue by `(h + d) % 360` (truncated
floating remainder) and converts back to RGB. -/
theorem triads_tetrads_spec (c : RGB) :
    c.triads =
      [c,
       HSL.to_rgb ⟨rustFmod (c.to_hsl.h + 120) 360, c.to_hsl.s, c.to_hsl.l⟩,
       HSL.to_rgb ⟨rustFmod (c.to_hsl.h + 240) 360, c.to_hsl.s, c.to_hsl.l⟩] ∧
    c.tetrads =
      [c,
       HSL.to_rgb ⟨rustFmod (c.to_hsl.h + 90) 360, c.to_hsl.s, c.to_hsl.l⟩,
       HSL.to_rgb ⟨rustFmod (c.to_hsl.h + 180) 360, c.to_hsl.s, c.to_hsl.l⟩,
       HSL.to_rgb ⟨rustFmod (c.to_hsl.h + 270) 360, c.to_hsl.s, c.to_hsl.l⟩] :=
  ⟨rfl, rfl⟩

/-- C7: when the three channels are equal the normalized delta is exactly
zero, so `to_hsl` returns hue 0 and saturation 0. -/
theorem to_hsl_achromatic (c : RGB) (h1 : c.r = c.g) (h2 : c.g = c.b) :
    c.to_hsl.h = 0 ∧ c.to_hsl.s = 0 := by
  obtain ⟨cr, cg, cb⟩ := c
  simp only at h1 h2
  subst h1; subst h2
  simp [RGB.to_hsl]

/-- C7 witness: mid-gray `RGB{128,128,128}` has hue 0 and saturation 0. -/
theorem to_hsl_achromatic_witness :
    (RGB.mk 128 128 128).to_hsl.h = 0 ∧ (RGB.mk 128 128 128).to_hsl.s = 0 :=
  to_hsl_achromatic (RGB.mk 128 128 128) rfl rfl

/-! ### Round-trip machinery -/

/-- A normalized channel lies in `[0, 1]`. -/
lemma chan01 (n : Fin 256) : (0 : ℚ) ≤ (n.val : ℚ) / 255 ∧ ((n.val : ℚ) / 255) ≤ 1 := by
  constructor
  · positivity
  · rw [div_le_one (by norm_num : (0 : ℚ) < 255)]
    exact_mod_cast Nat.le_of_lt_succ n.isLt

/-- Rounding a natural number is the identity. -/
lemma rustRound_natCast (n : ℕ) : rustRound ((n : ℚ)) = (n : ℤ) := by
  unfold rustRound
  rw [if_pos (by positivity)]
  rw [Int.floor_eq_iff]
  constructor
  · push_cast; linarith
  · push_cast; linarith

/-- When the interpolated color is an exact normalized channel, `hue_to_rgb`
returns that channel. -/
lemma hue_to_rgb_val (p q t0 : ℚ) (n : Fin 256)
    (h : hueColor p q t0 = (n.val : ℚ) / 255) : hue_to_rgb p q t0 = n := by
  unfold hue_to_rgb
  rw [h, div_mul_cancel₀ _ (show (255 : ℚ) ≠ 0 by norm_num), rustRound_natCast]
  unfold u8cast
  rw [dif_neg (by omega : ¬ ((n.val : ℤ) < 0)),
    dif_neg (by have := n.isLt; omega : ¬ ((255 : ℤ) < (n.val : ℤ)))]
  apply Fin.ext
  simp

/-- `hueColor` on the segment `[0, 1/6)`. -/
lemma hueColor_seg1 (p q t0 : ℚ) (h0 : 0 ≤ t0) (h1 : t0 < 1/6) :
    hueColor p q t0 = p + (q - p) * 6 * t0 := by
  simp only [hueColor]
  rw [if_neg (show ¬ t0 < 0 by linarith), if_neg (show ¬ t0 > 1 by linarith),
    if_pos h1]

/-- `hueColor` on the segment `[1/6, 1/2)`. -/
lemma hueColor_seg2 (p q t0 : ℚ) (h0 : 1/6 ≤ t0) (h1 : t0 < 1/2) :
    hueColor p q t0 = q := by
  simp only [hueColor]
  rw [if_neg (show ¬ t0 < 0 by linarith), if_neg (show ¬ t0 > 1 by linarith),
    if_neg (show ¬ t0 < 1/6 by linarith), if_pos h1]

/-- `hueColor` on the segment `[1/2, 2/3)`. -/
lemma hueColor_seg3 (p q t0 : ℚ) (h0 : 1/2 ≤ t0) (h1 : t0 < 2/3) :
    hueColor p q t0 = p + (q - p) * (2/3 - t0) * 6 := by
  simp only [hueColor]
  rw [if_neg (show ¬ t0 < 0 by linarith), if_neg (show ¬ t0 > 1 by linarith),
    if_neg (show ¬ t0 < 1/6 by linarith), if_neg (show ¬ t0 < 1/2 by linarith),
    if_pos h1]

/-- `hueColor` on the segment `[2/3, 1]`. -/
lemma hueColor_seg4 (p q t0 : ℚ) (h0 : 2/3 ≤ t0) (h1 : t0 ≤ 1) :
    hueColor p q t0 = p := by
  simp only [hueColor]
  rw [if_neg (show ¬ t0 < 0 by linarith), if_neg (show ¬ t0 > 1 by linarith),
    if_neg (show ¬ t0 < 1/6 by linarith), if_neg (show ¬ t0 < 1/2 by linarith),
    if_neg (show ¬ t0 < 2/3 by linarith)]

/-- The `t < 0` wrap of `hue_to_rgb` adds one. -/
lemma hueColor_wrap_neg (p q t0 : ℚ) (h : t0 < 0) (h2 : 0 ≤ t0 + 1)
    (h3 : t0 + 1 ≤ 1) : hueColor p q t0 = hueColor p q (t0 + 1) := by
  simp only [hueColor]
  rw [if_pos h, if_neg (show ¬ t0 + 1 > 1 by linarith),
    if_neg (show ¬ t0 + 1 < 0 by linarith), if_neg (show ¬ t0 + 1 > 1 by linarith)]

/-- The `t > 1` wrap of `hue_to_rgb` subtracts one. -/
lemma hueColor_wrap_gt (p q t0 : ℚ) (h : 1 < t0) (h2 : 0 ≤ t0 - 1)
    (h3 : t0 - 1 ≤ 1) : hueColor p q t0 = hueColor p q (t0 - 1) := by
  simp only [hueColor]
  rw [if_neg (show ¬ t0 < 0 by linarith), if_pos (show t0 > 1 from h),
    if_neg (show ¬ t0 - 1 < 0 by linarith), if_neg (show ¬ t0 - 1 > 1 by linarith)]

/-- With `p = q`, every branch of `hueColor` returns that common value. -/
lemma hueColor_const (l t0 : ℚ) : hueColor l l t0 = l := by
  simp only [hueColor]
  split_ifs <;> ring

/-- `rgbQ` at saturation zero is the lightness. -/
lemma rgbQ_zero (l : ℚ) : rgbQ 0 l = l := by
  unfold rgbQ
  split_ifs <;> ring

/-- `rgbP` at saturation zero is the lightness. -/
lemma rgbP_zero (l : ℚ) : rgbP 0 l = l := by
  unfold rgbP
  rw [rgbQ_zero]
  ring

/-- Feeding the saturation and lightness computed by `to_hsl` (chromatic
case) back into `to_rgb` recovers the channel maximum as `q`. -/
lemma rgbQ_recover (M m : ℚ) (h0 : 0 ≤ m) (hmM : m ≤ M) (hM1 : M ≤ 1)
    (hne : m ≠ M) :
    rgbQ (if (M + m) / 2 < 1/2 then (M - m) / (M + m) else (M - m) / (2 - M - m))
      ((M + m) / 2) = M := by
  have hmM' : m < M := lt_of_le_of_ne hmM hne
  by_cases hl : (M + m) / 2 < 1/2
  · rw [if_pos hl]
    unfold rgbQ
    rw [if_pos hl]
    have hMm : 0 < M + m := by linarith
    field_simp
    ring
  · rw [if_neg hl]
    unfold rgbQ
    rw [if_neg hl]
    have h2 : 0 < 2 - M - m := by linarith
    field_simp
    ring

/-- Feeding the saturation and lightness computed by `to_hsl` (chromatic
case) back into `to_rgb` recovers the channel minimum as `p`. -/
lemma rgbP_recover (M m : ℚ) (h0 : 0 ≤ m) (hmM : m ≤ M) (hM1 : M ≤ 1)
    (hne : m ≠ M) :
    rgbP (if (M + m) / 2 < 1/2 then (M - m) / (M + m) else (M - m) / (2 - M - m))
      ((M + m) / 2) = m := by
  unfold rgbP
  rw [rgbQ_recover M m h0 hmM hM1 hne]
  ring

/-- Hue interpolation round trip when red is the channel maximum: the hue
sector value lies in `[0,1] ∪ [5,6)` and each channel is recovered. -/
lemma arm_red (R G B : ℚ) (hG : G ≤ R) (hB : B ≤ R) (hlt : min G B < R) :
    hueColor (min G B) R (((G - B) / (R - min G B) + (if G < B then 6 else 0)) / 6 + 1/3) = R ∧
    hueColor (min G B) R (((G - B) / (R - min G B) + (if G < B then 6 else 0)) / 6) = G ∧
    hueColor (min G B) R (((G - B) / (R - min G B) + (if G < B then 6 else 0)) / 6 - 1/3) = B := by
  by_cases hgb : G < B
  · simp only [min_eq_left hgb.le] at hlt ⊢
    simp only [if_pos hgb]
    have hd : 0 < R - G := sub_pos.2 hlt
    have hd' : R - G ≠ 0 := ne_of_gt hd
    have hxlo : -1 ≤ (G - B) / (R - G) := by
      rw [le_div_iff hd]; linarith
    have hxhi : (G - B) / (R - G) < 0 := div_neg_of_neg_of_pos (by linarith) hd
    refine ⟨?_, ?_, ?_⟩
    · rw [hueColor_wrap_gt _ _ _ (by linarith) (by linarith) (by linarith),
        hueColor_seg2 _ _ _ (by linarith) (by linarith)]
    · rw [hueColor_seg4 _ _ _ (by linarith) (by linarith)]
    · rw [hueColor_seg3 _ _ _ (by linarith) (by linarith)]
      field_simp
      ring
  · have hbg : B ≤ G := le_of_not_lt hgb
    simp only [min_eq_right hbg] at hlt ⊢
    simp only [if_neg hgb]
    have hd : 0 < R - B := sub_pos.2 hlt
    have hd' : R - B ≠ 0 := ne_of_gt hd
    have hxlo : 0 ≤ (G - B) / (R - B) := div_nonneg (by linarith) hd.le
    have hxhi : (G - B) / (R - B) ≤ 1 := by
      rw [div_le_one hd]; linarith
    refine ⟨?_, ?_, ?_⟩
    · by_cases hx1 : (G - B) / (R - B) < 1
      · rw [hueColor_seg2 _ _ _ (by linarith) (by linarith)]
      · have hx : (G - B) / (R - B) = 1 := le_antisymm hxhi (not_lt.mp hx1)
        rw [hx, hueColor_seg3 _ _ _ (by norm_num) (by norm_num)]
        ring
    · by_cases hx1 : (G - B) / (R - B) < 1
      · rw [hueColor_seg1 _ _ _ (by linarith) (by linarith)]
        field_simp
      · have hx : (G - B) / (R - B) = 1 := le_antisymm hxhi (not_lt.mp hx1)
        have hGR : G = R := by
          have h' := hx
          rw [div_eq_iff hd'] at h'
          linarith
        rw [hx, hueColor_seg2 _ _ _ (by norm_num) (by norm_num)]
        exact hGR.symm
    · rw [hueColor_wrap_neg _ _ _ (by linarith) (by linarith) (by linarith),
        hueColor_seg4 _ _ _ (by linarith) (by linarith)]

/-- Hue interpolation round trip when green is the strict channel maximum:
the hue sector value lies in `(1,3]` and each channel is recovered. -/
lemma arm_green (R G B : ℚ) (hR : R < G) (hB : B ≤ G) :
    hueColor (min R B) G (((B - R) / (G - min R B) + 2) / 6 + 1/3) = R ∧
    hueColor (min R B) G (((B - R) / (G - min R B) + 2) / 6) = G ∧
    hueColor (min R B) G (((B - R) / (G - min R B) + 2) / 6 - 1/3) = B := by
  by_cases hbr : B < R
  · simp only [min_eq_right hbr.le]
    have hd : 0 < G - B := by linarith
    have hd' : G - B ≠ 0 := ne_of_gt hd
    have hxhi : (B - R) / (G - B) < 0 := div_neg_of_neg_of_pos (by linarith) hd
    have hxlo : -1 < (B - R) / (G - B) := by
      rw [lt_div_iff hd]; linarith
    refine ⟨?_, ?_, ?_⟩
    · rw [hueColor_seg3 _ _ _ (by linarith) (by linarith)]
      field_simp
      ring
    · rw [hueColor_seg2 _ _ _ (by linarith) (by linarith)]
    · rw [hueColor_wrap_neg _ _ _ (by linarith) (by linarith) (by linarith),
        hueColor_seg4 _ _ _ (by linarith) (by linarith)]
  · have hrb : R ≤ B := le_of_not_lt hbr
    simp only [min_eq_left hrb]
    have hd : 0 < G - R := by linarith
    have hd' : G - R ≠ 0 := ne_of_gt hd
    have hxlo : 0 ≤ (B - R) / (G - R) := div_nonneg (by linarith) hd.le
    have hxhi : (B - R) / (G - R) ≤ 1 := by
      rw [div_le_one hd]; linarith
    refine ⟨?_, ?_, ?_⟩
    · rw [hueColor_seg4 _ _ _ (by linarith) (by linarith)]
    · by_cases hx1 : (B - R) / (G - R) < 1
      · rw [hueColor_seg2 _ _ _ (by linarith) (by linarith)]
      · have hx : (B - R) / (G - R) = 1 := le_antisymm hxhi (not_lt.mp hx1)
        rw [hx, hueColor_seg3 _ _ _ (by norm_num) (by norm_num)]
        ring
    · by_cases hx1 : (B - R) / (G - R) < 1
      · rw [hueColor_seg1 _ _ _ (by linarith) (by linarith)]
        field_simp
        ring
      · have hx : (B - R) / (G - R) = 1 := le_antisymm hxhi (not_lt.mp hx1)
        have hBG : B = G := by
          have h' := hx
          rw [div_eq_iff hd'] at h'
          linarith
        rw [hx, hueColor_seg2 _ _ _ (by norm_num) (by norm_num)]
        exact hBG.symm

/-- Hue interpolation round trip when blue is the strict channel maximum:
the hue sector value lies in `(3,5)` and each channel is recovered. -/
lemma arm_blue (R G B : ℚ) (hR : R < B) (hG : G < B) :
    hueColor (min R G) B (((R - G) / (B - min R G) + 4) / 6 + 1/3) = R ∧
    hueColor (min R G) B (((R - G) / (B - min R G) + 4) / 6) = G ∧
    hueColor (min R G) B (((R - G) / (B - min R G) + 4) / 6 - 1/3) = B := by
  by_cases hrg : R ≤ G
  · simp only [min_eq_left hrg]
    have hd : 0 < B - R := by linarith
    have hd' : B - R ≠ 0 := ne_of_gt hd
    have hxhi : (R - G) / (B - R) ≤ 0 :=
      div_nonpos_of_nonpos_of_nonneg (by linarith) hd.le
    have hxlo : -1 < (R - G) / (B - R) := by
      rw [lt_div_iff hd]; linarith
    refine ⟨?_, ?_, ?_⟩
    · rw [hueColor_seg4 _ _ _ (by linarith) (by linarith)]
    · by_cases hx0 : (R - G) / (B - R) < 0
      · rw [hueColor_seg3 _ _ _ (by linarith) (by linarith)]
        field_simp
        ring
      · have hx : (R - G) / (B - R) = 0 := le_antisymm hxhi (not_lt.mp hx0)
        have hRG : R = G := by
          have h' := hx
          rw [div_eq_iff hd'] at h'
          linarith
        rw [hx, hueColor_seg4 _ _ _ (by norm_num) (by norm_num)]
        exact hRG
    · rw [hueColor_seg2 _ _ _ (by linarith) (by linarith)]
  · have hgr : G < R := lt_of_not_le hrg
    simp only [min_eq_right hgr.le]
    have hd : 0 < B - G := by linarith
    have hd' : B - G ≠ 0 := ne_of_gt hd
    have hxlo : 0 < (R - G) / (B - G) := div_pos (by linarith) hd
    have hxhi : (R - G) / (B - G) < 1 := by
      rw [div_lt_one hd]; linarith
    refine ⟨?_, ?_, ?_⟩
    · rw [hueColor_wrap_gt _ _ _ (by linarith) (by linarith) (by linarith),
        hueColor_seg1 _ _ _ (by linarith) (by linarith)]
      field_simp
      ring
    · rw [hueColor_seg4 _ _ _ (by linarith) (by linarith)]
    · rw [hueColor_seg2 _ _ _ (by linarith) (by linarith)]

/-- Exactness of the HSL round trip in the rational model: converting an RGB
color to HSL and back recovers every channel exactly. -/
theorem to_hsl_to_rgb (c : RGB) : (c.to_hsl).to_rgb = c := by
  obtain ⟨cr, cg, cb⟩ := c
  obtain ⟨hR0, hR1⟩ := chan01 cr
  obtain ⟨hG0, hG1⟩ := chan01 cg
  obtain ⟨hB0, hB1⟩ := chan01 cb
  simp only [RGB.to_hsl]
  by_cases hδ :
      max ((cr.val : ℚ) / 255) (max ((cg.val : ℚ) / 255) ((cb.val : ℚ) / 255)) -
        min ((cr.val : ℚ) / 255) (min ((cg.val : ℚ) / 255) ((cb.val : ℚ) / 255)) = 0
  · rw [if_pos hδ]
    have hM : max ((cr.val : ℚ) / 255) (max ((cg.val : ℚ) / 255) ((cb.val : ℚ) / 255)) =
        min ((cr.val : ℚ) / 255) (min ((cg.val : ℚ) / 255) ((cb.val : ℚ) / 255)) := by
      linarith
    have hRm : (cr.val : ℚ) / 255 =
        min ((cr.val : ℚ) / 255) (min ((cg.val : ℚ) / 255) ((cb.val : ℚ) / 255)) :=
      le_antisymm (hM ▸ le_max_left _ _) (min_le_left _ _)
    have hGm : (cg.val : ℚ) / 255 =
        min ((cr.val : ℚ) / 255) (min ((cg.val : ℚ) / 255) ((cb.val : ℚ) / 255)) :=
      le_antisymm (hM ▸ le_trans (le_max_left _ _) (le_max_right _ _))
        (le_trans (min_le_right _ _) (min_le_left _ _))
    have hBm : (cb.val : ℚ) / 255 =
        min ((cr.val : ℚ) / 255) (min ((cg.val : ℚ) / 255) ((cb.val : ℚ) / 255)) :=
      le_antisymm (hM ▸ le_trans (le_max_right _ _) (le_max_right _ _))
        (le_trans (min_le_right _ _) (min_le_right _ _))
    simp only [HSL.to_rgb, RGB.mk.injEq]
    have e0 : (0 : ℚ) / 100 = 0 := by norm_num
    have e1 : (max ((cr.val : ℚ) / 255) (max ((cg.val : ℚ) / 255) ((cb.val : ℚ) / 255)) +
          min ((cr.val : ℚ) / 255) (min ((cg.val : ℚ) / 255) ((cb.val : ℚ) / 255))) / 2 * 100 /
            100 =
        min ((cr.val : ℚ) / 255) (min ((cg.val : ℚ) / 255) ((cb.val : ℚ) / 255)) := by
      rw [hM]; ring
    have e2 : (0 : ℚ) / 360 = 0 := by norm_num
    rw [e0, e1, e2, rgbQ_zero, rgbP_zero]
    refine ⟨?_, ?_, ?_⟩
    · exact hue_to_rgb_val _ _ _ cr (by rw [hueColor_const]; exact hRm.symm)
    · exact hue_to_rgb_val _ _ _ cg (by rw [hueColor_const]; exact hGm.symm)
    · exact hue_to_rgb_val _ _ _ cb (by rw [hueColor_const]; exact hBm.symm)
  · rw [if_neg hδ]
    have hmle : min ((cr.val : ℚ) / 255) (min ((cg.val : ℚ) / 255) ((cb.val : ℚ) / 255)) ≤
        max ((cr.val : ℚ) / 255) (max ((cg.val : ℚ) / 255) ((cb.val : ℚ) / 255)) :=
      le_trans (min_le_left _ _) (le_max_left _ _)
    have hm0 : 0 ≤ min ((cr.val : ℚ) / 255) (min ((cg.val : ℚ) / 255) ((cb.val : ℚ) / 255)) :=
      le_min hR0 (le_min hG0 hB0)
    have hM1 : max ((cr.val : ℚ) / 255) (max ((cg.val : ℚ) / 255) ((cb.val : ℚ) / 255)) ≤ 1 :=
      max_le hR1 (max_le hG1 hB1)
    have hne : min ((cr.val : ℚ) / 255) (min ((cg.val : ℚ) / 255) ((cb.val : ℚ) / 255)) ≠
        max ((cr.val : ℚ) / 255) (max ((cg.val : ℚ) / 255) ((cb.val : ℚ) / 255)) :=
      fun h => hδ (by rw [h]; exact sub_self _)
    simp only [HSL.to_rgb, RGB.mk.injEq]
    have e1 : ∀ x : ℚ, x * 100 / 100 = x := fun x => by ring
    have e2 : ∀ x : ℚ, x * 60 / 360 = x / 6 := fun x => by ring
    simp only [e1, e2]
    rw [rgbQ_recover _ _ hm0 hmle hM1 hne, rgbP_recover _ _ hm0 hmle hM1 hne]
    by_cases h1 : max ((cr.val : ℚ) / 255) (max ((cg.val : ℚ) / 255) ((cb.val : ℚ) / 255)) =
        (cr.val : ℚ) / 255
    · have hG : (cg.val : ℚ) / 255 ≤ (cr.val : ℚ) / 255 := by
        rw [← h1]; exact le_trans (le_max_left _ _) (le_max_right _ _)
      have hB : (cb.val : ℚ) / 255 ≤ (cr.val : ℚ) / 255 := by
        rw [← h1]; exact le_trans (le_max_right _ _) (le_max_right _ _)
      have hm : min ((cr.val : ℚ) / 255) (min ((cg.val : ℚ) / 255) ((cb.val : ℚ) / 255)) =
          min ((cg.val : ℚ) / 255) ((cb.val : ℚ) / 255) :=
        min_eq_right (le_trans (min_le_left _ _) hG)
      have hlt0 := lt_of_le_of_ne hmle hne
      rw [hm, h1] at hlt0
      simp only [if_pos h1]
      rw [h1, hm]
      refine ⟨?_, ?_, ?_⟩
      · exact hue_to_rgb_val _ _ _ cr (arm_red _ _ _ hG hB hlt0).1
      · exact hue_to_rgb_val _ _ _ cg (arm_red _ _ _ hG hB hlt0).2.1
      · exact hue_to_rgb_val _ _ _ cb (arm_red _ _ _ hG hB hlt0).2.2
    · by_cases h2 : max ((cr.val : ℚ) / 255) (max ((cg.val : ℚ) / 255) ((cb.val : ℚ) / 255)) =
          (cg.val : ℚ) / 255
      · have hRle : (cr.val : ℚ) / 255 ≤ (cg.val : ℚ) / 255 := by
          rw [← h2]; exact le_max_left _ _
        have hRlt : (cr.val : ℚ) / 255 < (cg.val : ℚ) / 255 :=
          lt_of_le_of_ne hRle (fun h => h1 (h2.trans h.symm))
        have hBle : (cb.val : ℚ) / 255 ≤ (cg.val : ℚ) / 255 := by
          rw [← h2]; exact le_trans (le_max_right _ _) (le_max_right _ _)
        have hm : min ((cr.val : ℚ) / 255) (min ((cg.val : ℚ) / 255) ((cb.val : ℚ) / 255)) =
            min ((cr.val : ℚ) / 255) ((cb.val : ℚ) / 255) := by
          rw [min_eq_right hBle]
        simp only [if_neg h1, if_pos h2]
        rw [h2, hm]
        refine ⟨?_, ?_, ?_⟩
        · exact hue_to_rgb_val _ _ _ cr (arm_green _ _ _ hRlt hBle).1
        · exact hue_to_rgb_val _ _ _ cg (arm_green _ _ _ hRlt hBle).2.1
        · exact hue_to_rgb_val _ _ _ cb (arm_green _ _ _ hRlt hBle).2.2
      · have hMB : max ((cr.val : ℚ) / 255) (max ((cg.val : ℚ) / 255) ((cb.val : ℚ) / 255)) =
            (cb.val : ℚ) / 255 := by
          rcases max_choice ((cr.val : ℚ) / 255)
              (max ((cg.val : ℚ) / 255) ((cb.val : ℚ) / 255)) with h | h
          · exact absurd h h1
          · rcases max_choice ((cg.val : ℚ) / 255) ((cb.val : ℚ) / 255) with h' | h'
            · exact absurd (h.trans h') h2
            · exact h.trans h'
        have hRlt : (cr.val : ℚ) / 255 < (cb.val : ℚ) / 255 := by
          have h' : (cr.val : ℚ) / 255 ≤ (cb.val : ℚ) / 255 := by
            rw [← hMB]; exact le_max_left _ _
          exact lt_of_le_of_ne h' (fun h => h1 (hMB.trans h.symm))
        have hGlt : (cg.val : ℚ) / 255 < (cb.val : ℚ) / 255 := by
          have h' : (cg.val : ℚ) / 255 ≤ (cb.val : ℚ) / 255 := by
            rw [← hMB]; exact le_trans (le_max_left _ _) (le_max_right _ _)
          exact lt_of_le_of_ne h' (fun h => h2 (hMB.trans h.symm))
        have hm : min ((cr.val : ℚ) / 255) (min ((cg.val : ℚ) / 255) ((cb.val : ℚ) / 255)) =
            min ((cr.val : ℚ) / 255) ((cg.val : ℚ) / 255) := by
          rw [min_eq_left hGlt.le]
        simp only [if_neg h1, if_neg h2]
        rw [hMB, hm]
        refine ⟨?_, ?_, ?_⟩
        · exact hue_to_rgb_val _ _ _ cr (arm_blue _ _ _ hRlt hGlt).1
        · exact hue_to_rgb_val _ _ _ cg (arm_blue _ _ _ hRlt hGlt).2.1
        · exact hue_to_rgb_val _ _ _ cb (arm_blue _ _ _ hRlt hGlt).2.2

/-- Bounds of the normalized sector offset `(X - Y) / (max - min)` for two
channels sandwiched between the minimum and the maximum. -/
lemma sector_bounds (M m X Y : ℚ) (hΔ : 0 < M - m) (hXM : X ≤ M) (hmX : m ≤ X)
    (hYM : Y ≤ M) (hmY : m ≤ Y) :
    -1 ≤ (X - Y) / (M - m) ∧ (X - Y) / (M - m) ≤ 1 := by
  constructor
  · rw [le_div_iff hΔ]; linarith
  · rw [div_le_one hΔ]; linarith

/-- The saturation fraction computed by `to_hsl` (chromatic case) lies in
`[0, 1]`. -/
lemma sfrac_bounds (M m : ℚ) (h0 : 0 ≤ m) (hlt : m < M) (hM1 : M ≤ 1) :
    0 ≤ (if (M + m) / 2 < 1/2 then (M - m) / (M + m) else (M - m) / (2 - M - m)) ∧
    (if (M + m) / 2 < 1/2 then (M - m) / (M + m) else (M - m) / (2 - M - m)) ≤ 1 := by
  split_ifs with hl
  · have hMm : 0 < M + m := by linarith
    constructor
    · exact div_nonneg (by linarith) hMm.le
    · rw [div_le_one hMm]; linarith
  · have h2 : 0 < 2 - M - m := by linarith
    constructor
    · exact div_nonneg (by linarith) h2.le
    · rw [div_le_one h2]; linarith

/-- The hue sector value computed by `to_hsl` (chromatic case) lies in
`[0, 6)`. -/
lemma hsec_bounds (M m R G B : ℚ) (hΔ : 0 < M - m)
    (hRM : R ≤ M) (hGM : G ≤ M) (hBM : B ≤ M)
    (hmR : m ≤ R) (hmG : m ≤ G) (hmB : m ≤ B) :
    0 ≤ (if M = R then (G - B) / (M - m) + (if G < B then 6 else 0)
         else if M = G then (B - R) / (M - m) + 2 else (R - G) / (M - m) + 4) ∧
    (if M = R then (G - B) / (M - m) + (if G < B then 6 else 0)
     else if M = G then (B - R) / (M - m) + 2 else (R - G) / (M - m) + 4) < 6 := by
  obtain ⟨lGB, hGB⟩ := sector_bounds M m G B hΔ hGM hmG hBM hmB
  obtain ⟨lBR, hBR⟩ := sector_bounds M m B R hΔ hBM hmB hRM hmR
  obtain ⟨lRG, hRG⟩ := sector_bounds M m R G hΔ hRM hmR hGM hmG
  constructor
  · split_ifs with ha hgb hb
    · linarith
    · have h' : 0 ≤ (G - B) / (M - m) := div_nonneg (by linarith) hΔ.le
      linarith
    · linarith
    · linarith
  · split_ifs with ha hgb hb
    · have h' : (G - B) / (M - m) < 0 := div_neg_of_neg_of_pos (by linarith) hΔ
      linarith
    · linarith
    · linarith
    · linarith

/-- C8: for every RGB input, `to_hsl` returns hue in `[0, 360)`, saturation
in `[0, 100]` and lightness in `[0, 100]`. -/
theorem to_hsl_range (c : RGB) :
    (0 ≤ c.to_hsl.h ∧ c.to_hsl.h < 360) ∧
    (0 ≤ c.to_hsl.s ∧ c.to_hsl.s ≤ 100) ∧
    (0 ≤ c.to_hsl.l ∧ c.to_hsl.l ≤ 100) := by
  obtain ⟨cr, cg, cb⟩ := c
  obtain ⟨hR0, hR1⟩ := chan01 cr
  obtain ⟨hG0, hG1⟩ := chan01 cg
  obtain ⟨hB0, hB1⟩ := chan01 cb
  have hmle : min ((cr.val : ℚ) / 255) (min ((cg.val : ℚ) / 255) ((cb.val : ℚ) / 255)) ≤
      max ((cr.val : ℚ) / 255) (max ((cg.val : ℚ) / 255) ((cb.val : ℚ) / 255)) :=
    le_trans (min_le_left _ _) (le_max_left _ _)
  have hm0 : 0 ≤ min ((cr.val : ℚ) / 255) (min ((cg.val : ℚ) / 255) ((cb.val : ℚ) / 255)) :=
    le_min hR0 (le_min hG0 hB0)
  have hM1 : max ((cr.val : ℚ) / 255) (max ((cg.val : ℚ) / 255) ((cb.val : ℚ) / 255)) ≤ 1 :=
    max_le hR1 (max_le hG1 hB1)
  simp only [RGB.to_hsl]
  by_cases hδ :
      max ((cr.val : ℚ) / 255) (max ((cg.val : ℚ) / 255) ((cb.val : ℚ) / 255)) -
        min ((cr.val : ℚ) / 255) (min ((cg.val : ℚ) / 255) ((cb.val : ℚ) / 255)) = 0
  · rw [if_pos hδ]
    dsimp only
    refine ⟨⟨le_refl 0, by norm_num⟩, ⟨le_refl 0, by norm_num⟩, ?_, ?_⟩
    · linarith
    · linarith
  · rw [if_neg hδ]
    dsimp only
    have hne : min ((cr.val : ℚ) / 255) (min ((cg.val : ℚ) / 255) ((cb.val : ℚ) / 255)) ≠
        max ((cr.val : ℚ) / 255) (max ((cg.val : ℚ) / 255) ((cb.val : ℚ) / 255)) :=
      fun h => hδ (by rw [h]; exact sub_self _)
    have hΔ : 0 < max ((cr.val : ℚ) / 255) (max ((cg.val : ℚ) / 255) ((cb.val : ℚ) / 255)) -
        min ((cr.val : ℚ) / 255) (min ((cg.val : ℚ) / 255) ((cb.val : ℚ) / 255)) :=
      sub_pos.2 (lt_of_le_of_ne hmle hne)
    have hsec := hsec_bounds
      (max ((cr.val : ℚ) / 255) (max ((cg.val : ℚ) / 255) ((cb.val : ℚ) / 255)))
      (min ((cr.val : ℚ) / 255) (min ((cg.val : ℚ) / 255) ((cb.val : ℚ) / 255)))
      ((cr.val : ℚ) / 255) ((cg.val : ℚ) / 255) ((cb.val : ℚ) / 255)
      hΔ (le_max_left _ _)
      (le_trans (le_max_left _ _) (le_max_right _ _))
      (le_trans (le_max_right _ _) (le_max_right _ _))
      (min_le_left _ _)
      (le_trans (min_le_right _ _) (min_le_left _ _))
      (le_trans (min_le_right _ _) (min_le_right _ _))
    have hsf := sfrac_bounds
      (max ((cr.val : ℚ) / 255) (max ((cg.val : ℚ) / 255) ((cb.val : ℚ) / 255)))
      (min ((cr.val : ℚ) / 255) (min ((cg.val : ℚ) / 255) ((cb.val : ℚ) / 255)))
      hm0 (lt_of_le_of_ne hmle hne) hM1
    exact ⟨⟨by linarith [hsec.1], by linarith [hsec.2]⟩,
      ⟨by linarith [hsf.1], by linarith [hsf.2]⟩,
      ⟨by linarith, by linarith⟩⟩

/-- C1: the RGB→HSL→RGB round trip reproduces the original color within ±1
per channel (in the rational model it is in fact exact). -/
theorem roundtrip_within_one (c : RGB) :
    |((c.to_hsl.to_rgb).r.val : ℤ) - (c.r.val : ℤ)| ≤ 1 ∧
    |((c.to_hsl.to_rgb).g.val : ℤ) - (c.g.val : ℤ)| ≤ 1 ∧
    |((c.to_hsl.to_rgb).b.val : ℤ) - (c.b.val : ℤ)| ≤ 1 := by
  rw [to_hsl_to_rgb]
  simp

end Colors
